import Mathlib

/-!
Verification development for the JAM.V / SHOE rendering core.

This file shallowly embeds the parts of the code base that the verified
properties speak about:

* `ComponentPool<T>` (ComponentPool.h): a static pool per component type,
  holding a vector `allocated` of active components and a FIFO queue
  `unallocated` of free components.  Components are modelled as `Nat`
  handles (shared_ptr identities); the counter `next` supplies the fresh,
  pairwise-distinct identities produced by `std::make_shared<T>()`.
* The `Sort` specializations for `MeshRenderer` and `Light`: `std::sort`
  with a comparator `lt` leaves the vector a permutation of its input that
  is sorted for the comparator; we model it by `List.insertionSort` over
  the non-strict relation `fun a b => lt b a = false` (any comparison sort
  has exactly this observable behaviour).  Material pointers and light
  types are modelled by per-handle assignments `mat : Nat → Material` and
  `ty : Nat → Nat`, reflecting that sort keys are set and mutated after
  binding.
* `Game::Draw`, `Game::Flashlight`, `Game::OnResize` and
  `Game::DrawLoadingScreen` (Game.cpp) as trace-producing functions over
  small state records.
-/

namespace JAMV

/-- `POOL_SIZE` from ComponentPool.h: `constexpr auto POOL_SIZE = 32;`. -/
def POOL_SIZE : Nat := 32

/-- A material, as observed by the `ComponentPool<MeshRenderer>::Sort`
comparator: its shared_ptr identity (`matId`, modelling the pointer used by
`a->GetMaterial() < b->GetMaterial()`) and its `GetTransparent()` flag. -/
structure Material where
  matId : Nat
  transparent : Bool
deriving DecidableEq

/-- The static state of one `ComponentPool<T>`: the vector `allocated` of
active components, the queue `unallocated` of free components (head =
`front()`), and a counter supplying fresh shared_ptr identities for
`std::make_shared<T>()`. -/
structure PoolState where
  allocated : List Nat
  unallocated : List Nat
  next : Nat
deriving DecidableEq

/-- The initial pool state: both static containers are default-constructed
empty. -/
def emptyPool : PoolState := ⟨[], [], 0⟩

/-- The refill step at the top of `ComponentPool<T>::Instantiate`: if the
free queue is empty, push `POOL_SIZE` freshly `make_shared`ed components. -/
def refill (p : PoolState) : PoolState :=
  if p.unallocated.length = 0 then
    { p with
      unallocated := p.unallocated ++ (List.range POOL_SIZE).map (fun i => p.next + i),
      next := p.next + POOL_SIZE }
  else p

/-- `ComponentPool<T>::Instantiate`: refill if the free queue is empty, take
the queue's front, append it to `allocated`, pop it from the queue, bind it
(no pool-visible effect), run the type's `Sort`, and return it.  The `Sort`
specialization is passed as `sortFn` (the generic `Sort() {}` is the
identity).  `headD 0` is `front()`; the queue is never empty there because
of the refill guard. -/
def instantiate (sortFn : List Nat → List Nat) (p : PoolState) : Nat × PoolState :=
  let q := refill p
  let component := q.unallocated.headD 0
  (component,
    { allocated := sortFn (q.allocated ++ [component]),
      unallocated := q.unallocated.tail,
      next := q.next })

/-- `ComponentPool<T>::Free`: unbind the component (no pool-visible effect),
push it on the free queue, and erase-remove every occurrence of it from
`allocated` (order-preserving).  No membership check is performed. -/
def free (p : PoolState) (h : Nat) : PoolState :=
  { p with
    unallocated := p.unallocated ++ [h],
    allocated := p.allocated.filter (fun c => decide (c ≠ h)) }

/-- `ComponentPool<T>::GetActiveCount`: `allocated.size()`. -/
def getActiveCount (p : PoolState) : Nat := p.allocated.length

/-- `ComponentPool<T>::GetAll`: returns `allocated`. -/
def getAll (p : PoolState) : List Nat := p.allocated

/-- `ComponentPool<T>::GetAllEnabled`: loop over `allocated`, emplacing each
component whose `IsEnabled()` is true.  `IsEnabled` (IComponent.h; its body
is outside the pool) is the per-handle predicate `en`. -/
def getAllEnabled (en : Nat → Bool) (p : PoolState) : List Nat :=
  p.allocated.foldl (fun acc c => if en c then acc ++ [c] else acc) []

/-- The comparator of `ComponentPool<MeshRenderer>::Sort`:
if the transparency flags differ, return `b`'s transparency (so an opaque
`a` precedes a transparent `b`); otherwise compare material pointers. -/
def meshLt (mat : Nat → Material) (a b : Nat) : Bool :=
  if (mat a).transparent != (mat b).transparent then (mat b).transparent
  else decide ((mat a).matId < (mat b).matId)

/-- The comparator of `ComponentPool<Light>::Sort`:
`a->GetType() > b->GetType()`. -/
def lightLt (ty : Nat → Nat) (a b : Nat) : Bool :=
  decide (ty b < ty a)

/-- The non-strict order induced by the `MeshRenderer` comparator; a
comparison sort leaves the vector `Pairwise` for this relation. -/
def meshLe (mat : Nat → Material) (a b : Nat) : Prop := meshLt mat b a = false

/-- The non-strict order induced by the `Light` comparator. -/
def lightLe (ty : Nat → Nat) (a b : Nat) : Prop := lightLt ty b a = false

instance (mat : Nat → Material) : DecidableRel (meshLe mat) :=
  fun _ _ => Bool.decEq _ _

instance (ty : Nat → Nat) : DecidableRel (lightLe ty) :=
  fun _ _ => Bool.decEq _ _

/-- The generic `ComponentPool<T>::Sort() {}`: a no-op. -/
def noSortFn (l : List Nat) : List Nat := l

/-- The `ComponentPool<MeshRenderer>::Sort` specialization, as a comparison
sort under the mesh comparator. -/
def meshSortFn (mat : Nat → Material) (l : List Nat) : List Nat :=
  List.insertionSort (meshLe mat) l

/-- The `ComponentPool<Light>::Sort` specialization, as a comparison sort
under the light comparator. -/
def lightSortFn (ty : Nat → Nat) (l : List Nat) : List Nat :=
  List.insertionSort (lightLe ty) l

/-- One client operation on a pool: an acquire (`Instantiate`) or a release
(`Free`) of a given handle. -/
inductive PoolOp where
  | acquire : PoolOp
  | free : Nat → PoolOp
deriving DecidableEq

/-- Apply one operation to the pool state. -/
def applyOp (sortFn : List Nat → List Nat) (p : PoolState) : PoolOp → PoolState
  | PoolOp.acquire => (instantiate sortFn p).2
  | PoolOp.free h => free p h

/-- Run a sequence of operations. -/
def runOps (sortFn : List Nat → List Nat) (p : PoolState) (ops : List PoolOp) : PoolState :=
  ops.foldl (applyOp sortFn) p

/-- A sequence of operations is valid from `p` when every release is applied
to a currently active handle. -/
def validOps (sortFn : List Nat → List Nat) : PoolState → List PoolOp → Bool
  | _, [] => true
  | p, PoolOp.acquire :: rest => validOps sortFn (applyOp sortFn p PoolOp.acquire) rest
  | p, PoolOp.free h :: rest =>
      decide (h ∈ p.allocated) && validOps sortFn (free p h) rest

/-- Number of acquires in a sequence of operations. -/
def countAcquires (ops : List PoolOp) : Nat :=
  ops.countP (fun o => match o with | PoolOp.acquire => true | _ => false)

/-- Number of releases in a sequence of operations. -/
def countFrees (ops : List PoolOp) : Nat :=
  ops.countP (fun o => match o with | PoolOp.free _ => true | _ => false)

/-- The pool's structural invariant: the active sequence and the free queue
together contain no duplicate handle, and every handle in the pool was
produced by the fresh-handle counter. -/
def PoolInv (p : PoolState) : Prop :=
  (p.allocated ++ p.unallocated).Nodup ∧
    ∀ c ∈ p.allocated ++ p.unallocated, c < p.next

/-- The ordering claimed for a MeshRenderer pool's active sequence: every
component with a non-transparent material precedes every component with a
transparent material, and within each transparency group material
identities are non-decreasing. -/
def MeshOrdered (mat : Nat → Material) (l : List Nat) : Prop :=
  l.Pairwise (fun a b =>
    ((mat a).transparent = false ∧ (mat b).transparent = true) ∨
    ((mat a).transparent = (mat b).transparent ∧ (mat a).matId ≤ (mat b).matId))

/-- Contiguous grouping by light type: between two positions of equal type,
every position has that same type. -/
def GroupedByType (ty : Nat → Nat) (l : List Nat) : Prop :=
  ∀ i j k : Fin l.length, i ≤ j → j ≤ k →
    ty (l.get i) = ty (l.get k) → ty (l.get j) = ty (l.get i)

/-- Numeric rank of a transparency flag (opaque = 0, transparent = 1). -/
def transRank (b : Bool) : Nat := if b then 1 else 0

/-- The slice of `Game`'s state that `Game::Flashlight` and `Game::Draw`
read and write: the `flashMenuToggle` member, the flashlight's `enabled`
field, and the environment light's `enabled` field. -/
structure GameState where
  flashMenuToggle : Bool
  flashlightEnabled : Bool
  envLightEnabled : Bool
deriving DecidableEq

/-- The render passes issued by `Game::Draw`. -/
inductive RenderPass where
  | flashlightShadow : RenderPass
  | envShadow : RenderPass
  | mainDraw : RenderPass
deriving DecidableEq

/-- `Game::Flashlight`, run from `Game::Update` every frame: flip
`flashMenuToggle` if the toggle key action fired, then set the flashlight's
`enabled` field to `flashMenuToggle` (both branches of the `if`). -/
def flashlightStep (toggleKeyPressed : Bool) (s : GameState) : GameState :=
  let t := if toggleKeyPressed then !s.flashMenuToggle else s.flashMenuToggle
  { s with flashMenuToggle := t, flashlightEnabled := t }

/-- `Game::Draw`: render the flashlight shadow map iff `flashMenuToggle`,
then unconditionally render the environment shadow map, then the main
renderer draw. -/
def gameDraw (s : GameState) : List RenderPass :=
  (if s.flashMenuToggle then [RenderPass.flashlightShadow] else []) ++
    [RenderPass.envShadow, RenderPass.mainDraw]

/-- The externally visible steps of `Game::OnResize`.
`updateProjection w h` is `mainCamera->UpdateProjectionMatrix(w / h, 1)`
(the aspect ratio kept as the pair of window members it is computed from);
`postResize h w` is `renderer->PostResize(height, width, ...)`. -/
inductive ResizeStep where
  | updateProjection : Nat → Nat → ResizeStep
  | preResize : ResizeStep
  | platformResize : ResizeStep
  | postResize : Nat → Nat → ResizeStep
deriving DecidableEq

/-- Modelled from the spec: `DXCore::OnResize` is not under src/ (only its
call site in `Game::OnResize` is).  The spec's resize protocol treats it as
the platform resize event occurring between `PreResize()` and
`PostResize(newHeight, newWidth, ...)`, with the window's `width`/`height`
members already holding the new client size while `Game::OnResize` runs
(`PostResize` is passed exactly those members as the new dimensions). -/
def platformResizeEvent : List ResizeStep := [ResizeStep.platformResize]

/-- `Game::OnResize`: update the main camera's projection matrix with
aspect ratio `width / height` (guarded by `mainCamera != 0`), call
`renderer->PreResize()`, run the platform resize handling
(`DXCore::OnResize()`), then call
`renderer->PostResize(height, width, ...)`. -/
def onResize (cameraPresent : Bool) (width height : Nat) : List ResizeStep :=
  (if cameraPresent then [ResizeStep.updateProjection width height] else []) ++
    [ResizeStep.preResize] ++ platformResizeEvent ++
    [ResizeStep.postResize height width]

/-- The fixed per-item wait bound of the loading-screen presenter:
`notification->wait_for(lock, time(3000), ...)` in
`Game::DrawLoadingScreen`, in milliseconds. -/
def loadingWaitTimeoutMs : Nat := 3000

/-- The observable actions of one iteration of the presenter loop in
`Game::DrawLoadingScreen`.  `cancelLoader` is never emitted: no
cancellation path exists in the code. -/
inductive LoadAction where
  | waitFor : Nat → LoadAction
  | clearTargets : LoadAction
  | present : LoadAction
  | printTimeout : LoadAction
  | clearFlag : LoadAction
  | notify : LoadAction
  | cancelLoader : LoadAction
deriving DecidableEq

/-- One iteration of the presenter loop: bound the wait by the fixed
timeout; if the load-complete signal arrived within it, clear the targets
and present exactly one loading-screen frame, otherwise only print the
timeout message; in either case finish by clearing the
single-load-complete flag and notifying the loader. -/
def loadingIterationActions (signalWithinTimeout : Bool) : List LoadAction :=
  [LoadAction.waitFor loadingWaitTimeoutMs] ++
    (if signalWithinTimeout then [LoadAction.clearTargets, LoadAction.present]
     else [LoadAction.printTimeout]) ++
    [LoadAction.clearFlag, LoadAction.notify]

/-- The presenter loop over the sequence of per-iteration wait outcomes
observed while the load state stays `INITIALIZING`. -/
def drawLoadingScreenActions (signals : List Bool) : List LoadAction :=
  signals.foldr (fun s acc => loadingIterationActions s ++ acc) []

end JAMV

namespace JAMV

theorem meshLe_iff (mat : Nat → Material) (a b : Nat) :
    meshLe mat a b ↔
      transRank (mat a).transparent < transRank (mat b).transparent ∨
        (transRank (mat a).transparent = transRank (mat b).transparent ∧
          (mat a).matId ≤ (mat b).matId) := by
  cases hta : (mat a).transparent <;> cases htb : (mat b).transparent <;>
    simp [meshLe, meshLt, hta, htb, transRank] <;> omega

theorem lightLe_iff (ty : Nat → Nat) (a b : Nat) :
    lightLe ty a b ↔ ty b ≤ ty a := by
  simp [lightLe, lightLt]

instance meshLe_isTotal (mat : Nat → Material) : IsTotal Nat (meshLe mat) := by
  constructor
  intro a b
  rw [meshLe_iff, meshLe_iff]
  omega

instance meshLe_isTrans (mat : Nat → Material) : IsTrans Nat (meshLe mat) := by
  constructor
  intro a b c hab hbc
  rw [meshLe_iff] at hab hbc ⊢
  omega

instance lightLe_isTotal (ty : Nat → Nat) : IsTotal Nat (lightLe ty) := by
  constructor
  intro a b
  rw [lightLe_iff, lightLe_iff]
  omega

instance lightLe_isTrans (ty : Nat → Nat) : IsTrans Nat (lightLe ty) := by
  constructor
  intro a b c hab hbc
  rw [lightLe_iff] at hab hbc ⊢
  omega

theorem refill_allocated (p : PoolState) : (refill p).allocated = p.allocated := by
  unfold refill
  split <;> rfl

theorem refill_next (p : PoolState) :
    (refill p).next = if p.unallocated.length = 0 then p.next + POOL_SIZE else p.next := by
  unfold refill
  split <;> simp_all

theorem refill_unallocated_ne_nil (p : PoolState) : (refill p).unallocated ≠ [] := by
  unfold refill
  split
  case isTrue hlen =>
    have hnil : p.unallocated = [] := List.length_eq_zero.mp hlen
    simp [hnil, POOL_SIZE, List.range_succ]
  case isFalse hlen =>
    intro hnil
    exact hlen (by simp [hnil])

theorem refill_inv (p : PoolState) (hp : PoolInv p) : PoolInv (refill p) := by
  obtain ⟨hnd, hlt⟩ := hp
  unfold refill
  split
  case isTrue hlen =>
    have hnil : p.unallocated = [] := List.length_eq_zero.mp hlen
    rw [hnil] at hnd hlt
    simp only [List.append_nil] at hnd hlt
    constructor
    · show (p.allocated ++
        (p.unallocated ++ (List.range POOL_SIZE).map (fun i => p.next + i))).Nodup
      rw [hnil, List.nil_append, List.nodup_append]
      refine ⟨hnd, ?_, ?_⟩
      · exact List.Nodup.map (fun a b hab => by omega) (List.nodup_range POOL_SIZE)
      · intro a ha hb
        have h1 := hlt a ha
        obtain ⟨i, _, hi⟩ := List.mem_map.mp hb
        omega
    · intro c hc
      show c < p.next + POOL_SIZE
      have hc' : c ∈ p.allocated ++
          (p.unallocated ++ (List.range POOL_SIZE).map (fun i => p.next + i)) := hc
      rw [hnil, List.nil_append] at hc'
      rcases List.mem_append.mp hc' with hcA | hcF
      · have := hlt c hcA
        omega
      · obtain ⟨i, hir, hi⟩ := List.mem_map.mp hcF
        rw [List.mem_range] at hir
        omega
  case isFalse hlen =>
    exact ⟨hnd, hlt⟩

theorem instantiate_inv (sortFn : List Nat → List Nat)
    (hperm : ∀ l, List.Perm (sortFn l) l) (p : PoolState) (hp : PoolInv p) :
    PoolInv (instantiate sortFn p).2 ∧
      (instantiate sortFn p).2.allocated.length = p.allocated.length + 1 := by
  have hq := refill_inv p hp
  have hne := refill_unallocated_ne_nil p
  rcases hu : (refill p).unallocated with _ | ⟨c, t⟩
  · exact absurd hu hne
  obtain ⟨hnd, hlt⟩ := hq
  rw [hu] at hnd hlt
  have hstate : (instantiate sortFn p).2 =
      { allocated := sortFn ((refill p).allocated ++ [c]),
        unallocated := t, next := (refill p).next } := by
    simp [instantiate, hu]
  have h1 : List.Perm (sortFn ((refill p).allocated ++ [c]) ++ t)
      (((refill p).allocated ++ [c]) ++ t) :=
    List.Perm.append_right t (hperm _)
  have h2 : ((refill p).allocated ++ [c]) ++ t =
      (refill p).allocated ++ (c :: t) := by simp
  rw [h2] at h1
  constructor
  · rw [hstate]
    constructor
    · exact h1.nodup_iff.mpr hnd
    · intro x hx
      exact hlt x (h1.mem_iff.mp hx)
  · rw [hstate]
    show (sortFn ((refill p).allocated ++ [c])).length = p.allocated.length + 1
    rw [(hperm _).length_eq, List.length_append, refill_allocated]
    rfl

theorem length_filter_ne (l : List Nat) (h : Nat) (hnd : l.Nodup) (hm : h ∈ l) :
    (l.filter (fun c => decide (c ≠ h))).length + 1 = l.length := by
  induction l with
  | nil => cases hm
  | cons a t ih =>
    rw [List.nodup_cons] at hnd
    by_cases hah : a = h
    · subst hah
      have hft : t.filter (fun c => decide (c ≠ a)) = t := by
        apply List.filter_eq_self.mpr
        intro c hc
        simp only [decide_eq_true_eq]
        intro hca
        exact hnd.1 (hca ▸ hc)
      rw [List.filter_cons, if_neg (by simp), hft, List.length_cons]
    · have hmt : h ∈ t := by
        rcases List.mem_cons.mp hm with h1 | h1
        · exact absurd h1.symm hah
        · exact h1
      have hiht := ih hnd.2 hmt
      rw [List.filter_cons, if_pos (by simp [hah]), List.length_cons,
        List.length_cons]
      omega

theorem free_inv (p : PoolState) (h : Nat) (hmem : h ∈ p.allocated)
    (hp : PoolInv p) :
    PoolInv (free p h) ∧ (free p h).allocated.length + 1 = p.allocated.length := by
  obtain ⟨hnd, hlt⟩ := hp
  rw [List.nodup_append] at hnd
  obtain ⟨hndA, hndU, hdisj⟩ := hnd
  have hnotU : h ∉ p.unallocated := fun hu => hdisj hmem hu
  refine ⟨⟨?_, ?_⟩, ?_⟩
  · show (p.allocated.filter (fun c => decide (c ≠ h)) ++
      (p.unallocated ++ [h])).Nodup
    rw [List.nodup_append]
    refine ⟨(List.filter_sublist _).nodup hndA, ?_, ?_⟩
    · rw [List.nodup_append]
      refine ⟨hndU, List.nodup_singleton h, ?_⟩
      intro a ha hb
      rw [List.mem_singleton] at hb
      subst hb
      exact hnotU ha
    · intro a ha hb
      have hmemA := List.mem_of_mem_filter ha
      have hne : a ≠ h := by simpa using List.of_mem_filter ha
      rcases List.mem_append.mp hb with hbu | hbh
      · exact hdisj hmemA hbu
      · exact hne (List.mem_singleton.mp hbh)
  · intro c hc
    show c < p.next
    rcases List.mem_append.mp hc with hcA | hcU
    · exact hlt c (List.mem_append.mpr (Or.inl (List.mem_of_mem_filter hcA)))
    · rcases List.mem_append.mp hcU with hcU' | hch
      · exact hlt c (List.mem_append.mpr (Or.inr hcU'))
      · rw [List.mem_singleton] at hch
        subst hch
        exact hlt c (List.mem_append.mpr (Or.inl hmem))
  · exact length_filter_ne p.allocated h hndA hmem

theorem countAcquires_acquire_cons (rest : List PoolOp) :
    countAcquires (PoolOp.acquire :: rest) = countAcquires rest + 1 := by
  simp [countAcquires, List.countP_cons]

theorem countAcquires_free_cons (h : Nat) (rest : List PoolOp) :
    countAcquires (PoolOp.free h :: rest) = countAcquires rest := by
  simp [countAcquires, List.countP_cons]

theorem countFrees_acquire_cons (rest : List PoolOp) :
    countFrees (PoolOp.acquire :: rest) = countFrees rest := by
  simp [countFrees, List.countP_cons]

theorem countFrees_free_cons (h : Nat) (rest : List PoolOp) :
    countFrees (PoolOp.free h :: rest) = countFrees rest + 1 := by
  simp [countFrees, List.countP_cons]

theorem runOps_cons (sortFn : List Nat → List Nat) (p : PoolState)
    (op : PoolOp) (rest : List PoolOp) :
    runOps sortFn p (op :: rest) = runOps sortFn (applyOp sortFn p op) rest := rfl

theorem runOps_inv_count (sortFn : List Nat → List Nat)
    (hperm : ∀ l, List.Perm (sortFn l) l) :
    ∀ (ops : List PoolOp) (p : PoolState), PoolInv p →
      validOps sortFn p ops = true →
      PoolInv (runOps sortFn p ops) ∧
        (runOps sortFn p ops).allocated.length + countFrees ops =
          p.allocated.length + countAcquires ops := by
  intro ops
  induction ops with
  | nil =>
    intro p hp _
    exact ⟨hp, by simp [runOps, countFrees, countAcquires]⟩
  | cons op rest ih =>
    intro p hp hv
    cases op with
    | acquire =>
      have hstep := instantiate_inv sortFn hperm p hp
      have hvrest : validOps sortFn (applyOp sortFn p PoolOp.acquire) rest = true := hv
      have hrest := ih (applyOp sortFn p PoolOp.acquire) hstep.1 hvrest
      refine ⟨by rw [runOps_cons]; exact hrest.1, ?_⟩
      rw [runOps_cons, countFrees_acquire_cons, countAcquires_acquire_cons]
      have h1 := hrest.2
      have h2 := hstep.2
      simp only [applyOp] at h1 ⊢
      omega
    | free h =>
      have hv' : (decide (h ∈ p.allocated) && validOps sortFn (free p h) rest) = true := hv
      rw [Bool.and_eq_true, decide_eq_true_eq] at hv'
      obtain ⟨hmem, hvrest⟩ := hv'
      have hstep := free_inv p h hmem hp
      have hrest := ih (free p h) hstep.1 hvrest
      refine ⟨by rw [runOps_cons]; exact hrest.1, ?_⟩
      rw [runOps_cons, countFrees_free_cons, countAcquires_free_cons]
      have h1 := hrest.2
      have h2 := hstep.2
      simp only [applyOp] at h1 ⊢
      omega

theorem runOps_append (sortFn : List Nat → List Nat) (p : PoolState)
    (l₁ l₂ : List PoolOp) :
    runOps sortFn p (l₁ ++ l₂) = runOps sortFn (runOps sortFn p l₁) l₂ :=
  List.foldl_append _ _ _ _

theorem runOps_acquire_allocated (sortFn : List Nat → List Nat) (p : PoolState) :
    (runOps sortFn p [PoolOp.acquire]).allocated =
      sortFn ((refill p).allocated ++ [(refill p).unallocated.headD 0]) := rfl

theorem meshLe_imp_claim (mat : Nat → Material) (a b : Nat)
    (h : meshLe mat a b) :
    ((mat a).transparent = false ∧ (mat b).transparent = true) ∨
      ((mat a).transparent = (mat b).transparent ∧ (mat a).matId ≤ (mat b).matId) := by
  rw [meshLe_iff] at h
  cases ha : (mat a).transparent <;> cases hb : (mat b).transparent <;>
    simp [ha, hb, transRank] at h ⊢ <;> omega

theorem pairwise_ge_grouped (ty : Nat → Nat) (l : List Nat)
    (h : l.Pairwise (fun a b => ty b ≤ ty a)) : GroupedByType ty l := by
  intro i j k hij hjk hik
  rw [List.pairwise_iff_get] at h
  rcases eq_or_lt_of_le hij with rfl | hij'
  · rfl
  · rcases eq_or_lt_of_le hjk with rfl | hjk'
    · exact hik.symm
    · have h1 := h i j hij'
      have h2 := h j k hjk'
      omega

theorem getAllEnabled_foldl (en : Nat → Bool) :
    ∀ (l acc : List Nat),
      l.foldl (fun acc c => if en c then acc ++ [c] else acc) acc =
        acc ++ l.filter en := by
  intro l
  induction l with
  | nil =>
    intro acc
    simp
  | cons a t ih =>
    intro acc
    cases h : en a <;>
      simp [List.foldl_cons, List.filter_cons, h, ih]

theorem drawLoading_present_count (signals : List Bool) :
    (drawLoadingScreenActions signals).count LoadAction.present =
      signals.count true := by
  induction signals with
  | nil => rfl
  | cons s t ih =>
    have hcons : drawLoadingScreenActions (s :: t) =
        loadingIterationActions s ++ drawLoadingScreenActions t := rfl
    rw [hcons, List.count_append, ih]
    cases s <;>
        simp [loadingIterationActions, List.count_cons, List.count_nil] <;>
      omega

/-- C1: for every sequence of acquires and releases on the MeshRenderer
pool, immediately after every acquire the active sequence satisfies: every
component whose material is not transparent precedes every component whose
material is transparent, and within each transparency group the material
identities are non-decreasing. -/
theorem meshPool_ordered_after_acquire (mat : Nat → Material) (p : PoolState)
    (ops : List PoolOp) :
    MeshOrdered mat
      (runOps (meshSortFn mat) p (ops ++ [PoolOp.acquire])).allocated := by
  rw [runOps_append, runOps_acquire_allocated]
  exact List.Pairwise.imp (fun hab => meshLe_imp_claim mat _ _ hab)
    (List.sorted_insertionSort (meshLe mat) _)

/-- C2: for every sequence of acquires and releases on the Light pool,
immediately after every acquire the active sequence has non-increasing
`GetType()` values and is therefore grouped contiguously by light type in
that fixed priority order. -/
theorem lightPool_grouped_after_acquire (ty : Nat → Nat) (p : PoolState)
    (ops : List PoolOp) :
    (runOps (lightSortFn ty) p (ops ++ [PoolOp.acquire])).allocated.Pairwise
        (fun a b => ty b ≤ ty a) ∧
      GroupedByType ty
        (runOps (lightSortFn ty) p (ops ++ [PoolOp.acquire])).allocated := by
  have hpair :
      (runOps (lightSortFn ty) p (ops ++ [PoolOp.acquire])).allocated.Pairwise
        (fun a b => ty b ≤ ty a) := by
    rw [runOps_append, runOps_acquire_allocated]
    exact List.Pairwise.imp (fun hab => (lightLe_iff ty _ _).mp hab)
      (List.sorted_insertionSort (lightLe ty) _)
  exact ⟨hpair, pairwise_ge_grouped ty _ hpair⟩

/-- C3: for every pool type (any permutation-producing `Sort`, including
the generic no-op) and every interleaving of acquires and releases in
which each release is applied to a currently active handle,
`GetActiveCount()` equals the number of acquires minus the number of
releases (stated additively to stay in `Nat`), and no handle is
simultaneously in the active sequence and the free queue. -/
theorem pool_activeCount_and_disjoint (sortFn : List Nat → List Nat)
    (hperm : ∀ l, List.Perm (sortFn l) l) (ops : List PoolOp)
    (hv : validOps sortFn emptyPool ops = true) :
    getActiveCount (runOps sortFn emptyPool ops) + countFrees ops =
        countAcquires ops ∧
      ∀ c, ¬(c ∈ (runOps sortFn emptyPool ops).allocated ∧
        c ∈ (runOps sortFn emptyPool ops).unallocated) := by
  have hinv0 : PoolInv emptyPool := by
    constructor <;> simp [emptyPool]
  have h := runOps_inv_count sortFn hperm ops emptyPool hinv0 hv
  constructor
  · have h2 := h.2
    simpa [getActiveCount, emptyPool] using h2
  · rintro c ⟨hc1, hc2⟩
    have hnd := h.1.1
    rw [List.nodup_append] at hnd
    exact hnd.2.2 hc1 hc2

/-- Witness for C3: the generic no-op `Sort` with the trace acquire,
acquire, release of handle 0. -/
theorem pool_activeCount_and_disjoint_witness :
    getActiveCount (runOps noSortFn emptyPool
        [PoolOp.acquire, PoolOp.acquire, PoolOp.free 0]) +
      countFrees [PoolOp.acquire, PoolOp.acquire, PoolOp.free 0] =
    countAcquires [PoolOp.acquire, PoolOp.acquire, PoolOp.free 0] :=
  (pool_activeCount_and_disjoint noSortFn (fun l => List.Perm.refl l)
    [PoolOp.acquire, PoolOp.acquire, PoolOp.free 0] (by decide)).1

/-- C4: when the free queue is empty, an acquire allocates exactly one new
batch of `POOL_SIZE` = 32 fresh instances (the fresh-instance counter
advances by 32), satisfies the request from that batch (the returned
component is the batch's first instance), and leaves exactly 31 instances
on the free queue; an acquire with a non-empty free queue allocates
nothing: the counter is unchanged and the queue merely loses its front,
which is the component returned. -/
theorem instantiate_exhaustion (sortFn : List Nat → List Nat) (p : PoolState) :
    (p.unallocated = [] →
        (instantiate sortFn p).2.next = p.next + 32 ∧
        (instantiate sortFn p).1 = p.next ∧
        (instantiate sortFn p).2.unallocated =
          ((List.range POOL_SIZE).map (fun i => p.next + i)).tail ∧
        (instantiate sortFn p).2.unallocated.length = 31) ∧
    (p.unallocated ≠ [] →
        (instantiate sortFn p).2.next = p.next ∧
        (instantiate sortFn p).2.unallocated = p.unallocated.tail ∧
        (instantiate sortFn p).1 = p.unallocated.headD 0) := by
  constructor
  · intro hnil
    have hrefill : refill p =
        { p with
          unallocated := (List.range POOL_SIZE).map (fun i => p.next + i),
          next := p.next + POOL_SIZE } := by
      unfold refill
      rw [if_pos (by simp [hnil])]
      rw [hnil, List.nil_append]
    have hrange : List.range POOL_SIZE = 0 :: (List.range 31).map Nat.succ := by
      decide
    refine ⟨?_, ?_, ?_, ?_⟩
    · show (refill p).next = p.next + 32
      rw [hrefill]
      rfl
    · show (refill p).unallocated.headD 0 = p.next
      rw [hrefill]
      simp [hrange]
    · show (refill p).unallocated.tail = _
      rw [hrefill]
    · show (refill p).unallocated.tail.length = 31
      rw [hrefill]
      simp [hrange]
  · intro hne
    have hrefill : refill p = p := by
      unfold refill
      rw [if_neg (by simp [hne])]
    exact ⟨by show (refill p).next = p.next; rw [hrefill],
      by show (refill p).unallocated.tail = _; rw [hrefill],
      by show (refill p).unallocated.headD 0 = _; rw [hrefill]⟩

/-- Witness for C4: an acquire on the empty pool allocates one batch of 32
and leaves 31 queued; an acquire on a pool with a non-empty free queue
leaves the counter unchanged. -/
theorem instantiate_exhaustion_witness :
    (instantiate noSortFn emptyPool).2.next = 0 + 32 ∧
    (instantiate noSortFn emptyPool).1 = 0 ∧
    (instantiate noSortFn emptyPool).2.unallocated.length = 31 ∧
    (instantiate noSortFn { allocated := [0], unallocated := [7], next := 8 }).2.next = 8 := by
  have h1 := (instantiate_exhaustion noSortFn emptyPool).1 rfl
  have h2 := (instantiate_exhaustion noSortFn
    { allocated := [0], unallocated := [7], next := 8 }).2 (by decide)
  exact ⟨h1.1, h1.2.1, h1.2.2.2, h2.1⟩

/-- C5 counterexample: releasing handle 5 on the empty pool — a handle that
is not active and never was — is not detected: it silently mutates the pool
and leaves 5 enqueued on the free queue. -/
theorem free_unbound_counterexample :
    5 ∉ emptyPool.allocated ∧
    free emptyPool 5 ≠ emptyPool ∧
    5 ∈ (free emptyPool 5).unallocated := by
  decide

/-- C5 amended: `Free` performs no membership check and signals no error;
releasing a handle that is not currently active leaves the active sequence
unchanged and silently appends the handle to the free queue — guarding
with a membership check is the caller's responsibility. -/
theorem free_unbound_silently_enqueues (p : PoolState) (h : Nat)
    (hmem : h ∉ p.allocated) :
    (free p h).allocated = p.allocated ∧
    (free p h).unallocated = p.unallocated ++ [h] := by
  refine ⟨?_, rfl⟩
  show p.allocated.filter (fun c => decide (c ≠ h)) = p.allocated
  apply List.filter_eq_self.mpr
  intro c hc
  simp only [decide_eq_true_eq]
  intro hch
  exact hmem (hch ▸ hc)

/-- Witness for the amended C5 at the empty pool and handle 5. -/
theorem free_unbound_silently_enqueues_witness :
    5 ∉ emptyPool.allocated ∧
    (free emptyPool 5).allocated = emptyPool.allocated ∧
    (free emptyPool 5).unallocated = emptyPool.unallocated ++ [5] :=
  ⟨by decide, free_unbound_silently_enqueues emptyPool 5 (by decide)⟩

/-- C6: `GetAll()` returns exactly the active sequence,
`GetActiveCount()` equals its length, and `GetAllEnabled()` returns
exactly the active components whose enabled predicate holds, in their
active-sequence order (a sublist of the active sequence). -/
theorem pool_query_correct (en : Nat → Bool) (p : PoolState) :
    getAll p = p.allocated ∧
    getActiveCount p = (getAll p).length ∧
    getAllEnabled en p = (getAll p).filter en ∧
    List.Sublist (getAllEnabled en p) (getAll p) ∧
    (∀ c, c ∈ getAllEnabled en p ↔ c ∈ getAll p ∧ en c = true) := by
  have hfe : getAllEnabled en p = p.allocated.filter en := by
    unfold getAllEnabled
    rw [getAllEnabled_foldl]
    rw [List.nil_append]
  refine ⟨rfl, rfl, hfe, ?_, ?_⟩
  · rw [hfe]
    exact List.filter_sublist _
  · intro c
    rw [hfe]
    exact List.mem_filter

/-- C7 counterexample: with the environment light disabled, `Game::Draw`
still issues the environment shadow pass. -/
theorem envShadow_despite_disabled_light :
    (flashlightStep false ⟨false, false, false⟩).envLightEnabled = false ∧
    RenderPass.envShadow ∈ gameDraw (flashlightStep false ⟨false, false, false⟩) := by
  decide

/-- C7 amended: after `Game::Flashlight` runs (it runs in every
`Game::Update`, before `Game::Draw`), the flashlight shadow map is
rendered exactly when the flashlight is enabled, while the environment
shadow map is rendered unconditionally, regardless of its light's enabled
flag. -/
theorem draw_shadow_passes (k : Bool) (s : GameState) :
    (RenderPass.flashlightShadow ∈ gameDraw (flashlightStep k s) ↔
        (flashlightStep k s).flashlightEnabled = true) ∧
    RenderPass.envShadow ∈ gameDraw (flashlightStep k s) := by
  cases k <;> cases hs : s.flashMenuToggle <;>
    simp [flashlightStep, gameDraw, hs]

/-- C8: `Game::OnResize` (with the main camera present) invokes
`PreResize` before the platform resize handling, which precedes
`PostResize(height, width)`, and the camera projection update with aspect
ratio width/height occurs within the same `OnResize` trace, hence before
the next `Draw`. -/
theorem onResize_protocol (w h : Nat) :
    ResizeStep.updateProjection w h ∈ onResize true w h ∧
    ∃ i j k : Nat, i < j ∧ j < k ∧
      (onResize true w h)[i]? = some ResizeStep.preResize ∧
      (onResize true w h)[j]? = some ResizeStep.platformResize ∧
      (onResize true w h)[k]? = some (ResizeStep.postResize h w) := by
  refine ⟨?_, 1, 2, 3, by omega, by omega, ?_, ?_, ?_⟩ <;>
    simp [onResize, platformResizeEvent]

/-- C9: every presenter iteration starts by waiting with the fixed 3000 ms
timeout; on a signal within the timeout it renders exactly one
loading-screen frame, on timeout it renders none; either way it ends by
clearing the single-load-complete flag and notifying back, and never
cancels the loader; across the loop the frames rendered equal the signals
received. -/
theorem loadingScreen_iteration (signal : Bool) (signals : List Bool) :
    loadingWaitTimeoutMs = 3000 ∧
    (loadingIterationActions signal).head? =
      some (LoadAction.waitFor loadingWaitTimeoutMs) ∧
    (loadingIterationActions signal).count LoadAction.present =
      (if signal then 1 else 0) ∧
    LoadAction.cancelLoader ∉ loadingIterationActions signal ∧
    (∃ pre, loadingIterationActions signal =
      pre ++ [LoadAction.clearFlag, LoadAction.notify]) ∧
    (drawLoadingScreenActions signals).count LoadAction.present =
      signals.count true := by
  refine ⟨rfl, ?_, ?_, ?_, ?_, drawLoading_present_count signals⟩
  · cases signal <;> rfl
  · cases signal <;> decide
  · cases signal <;> decide
  · cases signal
    · exact ⟨[LoadAction.waitFor loadingWaitTimeoutMs, LoadAction.printTimeout], rfl⟩
    · exact ⟨[LoadAction.waitFor loadingWaitTimeoutMs, LoadAction.clearTargets,
        LoadAction.present], rfl⟩

/-- C10: releasing a currently active handle removes exactly that handle's
occurrences from the active sequence, leaves the relative order of all
other components unchanged (the result is a sublist of the old active
sequence — no re-sort happens), and therefore preserves any pairwise
ordering invariant that held before the release. -/
theorem free_preserves_order (p : PoolState) (h : Nat)
    (hmem : h ∈ p.allocated) :
    (free p h).allocated.count h = 0 ∧
    (∀ c, c ≠ h → (free p h).allocated.count c = p.allocated.count c) ∧
    List.Sublist (free p h).allocated p.allocated ∧
    (∀ (R : Nat → Nat → Prop), p.allocated.Pairwise R →
      (free p h).allocated.Pairwise R) := by
  refine ⟨?_, ?_, List.filter_sublist _, ?_⟩
  · rw [List.count_eq_zero]
    intro hmemf
    have := List.of_mem_filter hmemf
    simp at this
  · intro c hc
    show (p.allocated.filter (fun x => decide (x ≠ h))).count c = _
    rw [List.count_filter (by simp [hc])]
  · intro R hR
    exact hR.sublist (List.filter_sublist _)

/-- Witness for C10: releasing handle 3 from active sequence [3, 5]. -/
theorem free_preserves_order_witness :
    3 ∈ ({ allocated := [3, 5], unallocated := [], next := 6 } : PoolState).allocated ∧
    (free { allocated := [3, 5], unallocated := [], next := 6 } 3).allocated.count 3 = 0 :=
  ⟨by decide,
    (free_preserves_order { allocated := [3, 5], unallocated := [], next := 6 } 3
      (by decide)).1⟩

end JAMV
